import Mathlib

/-!
Shallow embedding of the `csv` package (file `csv.go`): a decoder that reads
delimited rows, resolves a struct-derived schema against the header row, and
converts each data row's cells into typed field values, with a strict/lazy
error policy.

Go machine integers are modelled as `Int` with explicit range checks where the
source checks ranges; slices are `List`s; slice indexing `record[i]` (which
panics in Go when `i` is out of range) is modelled by an explicit out-of-range
outcome.
-/

namespace Csv

/-- Decode kinds, as classified by the `switch fieldInfo.kind` in `Unmarshal`:
`reflect.Bool`; the signed-integer kinds `Int..Int64`; `Float32/Float64`;
`String`; everything else falls into the `default:` branch (`unsupported`). -/
inductive Kind where
  | bool
  | int
  | float
  | str
  | unsupported
deriving DecidableEq, Repr

/-- One field of the target struct as reflection exposes it to
`createFieldInfos`: its Go field name, the value of its `csv:"..."` tag
(empty string when the tag is absent), and its `reflect.Kind` class. -/
structure StructField where
  fieldName : String
  csvTag : String
  kind : Kind
deriving DecidableEq, Repr

/-- The argument of `createFieldInfos`: either not a struct at all
(`reflect.TypeOf(s).Kind() != reflect.Struct`) or a struct given by its
ordered field list. -/
inductive Shape where
  | notStruct
  | ofStruct (fields : List StructField)
deriving DecidableEq, Repr

/-- Go error values that appear in the package: the package-level sentinels,
the errors built with `fmt.Errorf` in `createFieldInfos`, the `strconv`
failures (`ParseBool`/`Atoi`/`ParseFloat`, carrying the offending literal),
and the causes carried inside `csv.ParseError`s produced by the underlying
`encoding/csv` reader (modelled by an opaque numeric code). -/
inductive GoErr where
  | errNoStruct
  | errHeaderNotComplete
  | errUnsupportedCSVType
  | duplicateTag (name : String)
  | emptyTag (field : String)
  | boolParse (s : String)
  | intParse (s : String)
  | floatParse (s : String)
  | readErr (code : Nat)
deriving DecidableEq, Repr

/-- Struct `fieldInfo` from `csv.go`: resolved column position (`-1` = unresolved),
csv header name, struct field name, decode kind. -/
structure fieldInfo where
  position : Int
  headerName : String
  fieldName : String
  kind : Kind
deriving DecidableEq, Repr

/-- Function `fieldInfos.isComplete`: false as soon as some `position < 0`. -/
def isComplete (fis : List fieldInfo) : Bool :=
  fis.all fun fi => !(decide (fi.position < 0))

/-- The loop body of `createFieldInfos`: walks the struct fields carrying the
set of header names seen so far (`headerNameMap`) and the accumulated
descriptor list. Tags containing a dash are skipped
(`strings.Contains(headerName, "-")`); a repeated tag fails with the
duplicate-tag error; an empty tag (checked after the duplicate check, as in
the source) fails with the empty-tag error; otherwise a descriptor with
`position = -1` is appended. -/
def createFieldInfosAux : List StructField → List String → List fieldInfo →
    Except GoErr (List fieldInfo)
  | [], _, acc => .ok acc
  | f :: rest, seen, acc =>
    if f.csvTag.data.contains '-' then
      createFieldInfosAux rest seen acc
    else if seen.contains f.csvTag then
      .error (.duplicateTag f.csvTag)
    else if f.csvTag.length = 0 then
      .error (.emptyTag f.fieldName)
    else
      createFieldInfosAux rest (f.csvTag :: seen)
        (acc ++ [{ position := -1, headerName := f.csvTag,
                   fieldName := f.fieldName, kind := f.kind }])

/-- Function `createFieldInfos` from `csv.go`. -/
def createFieldInfos : Shape → Except GoErr (List fieldInfo)
  | .notStruct => .error .errNoStruct
  | .ofStruct fields => createFieldInfosAux fields [] []

/-- Helper for `stringSlice.pos`: index scan carrying the current index. -/
def posFrom : List String → String → Int → Int
  | [], _, _ => -1
  | v :: rest, item, i => if item = v then i else posFrom rest item (i + 1)

/-- Method `stringSlice.pos`: index of the first cell equal to `item`, `-1` if none. -/
def pos (s : List String) (item : String) : Int :=
  posFrom s item 0

/-- The header-resolution block of `Unmarshal` (the `line == 1` branch): for
each descriptor, look its header name up in the header row and store the
index when it is non-negative. -/
def resolveHeader (fis : List fieldInfo) (record : List String) : List fieldInfo :=
  fis.map fun fi =>
    let index := pos record fi.headerName
    if 0 ≤ index then { fi with position := index } else fi

/-- Model of Go `strconv.ParseBool` (standard library): a `switch` accepting
exactly the twelve literals below and failing on everything else. -/
def parseBool (s : String) : Option Bool :=
  if s = "1" ∨ s = "t" ∨ s = "T" ∨ s = "true" ∨ s = "TRUE" ∨ s = "True" then
    some true
  else if s = "0" ∨ s = "f" ∨ s = "F" ∨ s = "false" ∨ s = "FALSE" ∨ s = "False" then
    some false
  else
    none

/-- Value of a list of decimal digit characters. -/
def natOfDigits (ds : List Char) : Nat :=
  ds.foldl (fun a c => a * 10 + (c.toNat - 48)) 0

/-- Model of Go `strconv.Atoi` (standard library): optional sign, one or more
decimal digits, value within the 64-bit signed range; `Atoi` reports an error
(`ErrSyntax` or `ErrRange`) in every other case, modelled as `none`. -/
def atoi (s : String) : Option Int :=
  let cs := s.toList
  let signDigits : Bool × List Char :=
    match cs with
    | '+' :: rest => (false, rest)
    | '-' :: rest => (true, rest)
    | rest => (false, rest)
  let neg := signDigits.1
  let ds := signDigits.2
  if ds = [] then none
  else if ds.all Char.isDigit then
    let v : Int := if neg then -(natOfDigits ds : Int) else (natOfDigits ds : Int)
    if -(2 ^ 63) ≤ v ∧ v ≤ 2 ^ 63 - 1 then some v else none
  else none

/-- Result of Go `strconv.ParseFloat`: a finite value, an infinity, or NaN.
A finite value is kept as the exact decimal value of the literal,
`mantissa * 10 ^ exp10`; rounding to binary64 is not modelled, and no claim
compares values obtained from distinct literals, so this exact decimal form
is a faithful value representation for every claim. -/
inductive GoFloat where
  | finite (mantissa : Int) (exp10 : Int)
  | inf (neg : Bool)
  | nan
deriving DecidableEq, Repr

/-- Mantissa of a decimal floating literal: `digits`, `digits.digits`,
`digits.` or `.digits` — at least one digit overall. Returns the digit string
read as a natural number together with the number of fractional digits (the
value is the first component divided by `10 ^` the second). -/
def parseMantissa (cs : List Char) : Option (Nat × Nat) :=
  let intPart := cs.takeWhile Char.isDigit
  let rest := cs.dropWhile Char.isDigit
  match rest with
  | [] => if intPart = [] then none else some (natOfDigits intPart, 0)
  | '.' :: fracRest =>
    let frac := fracRest.takeWhile Char.isDigit
    let rest2 := fracRest.dropWhile Char.isDigit
    if rest2 = [] ∧ (intPart ≠ [] ∨ frac ≠ []) then
      some (natOfDigits (intPart ++ frac), frac.length)
    else none
  | _ => none

/-- Exponent part of a decimal floating literal: optional sign then one or
more digits. -/
def parseExponent (cs : List Char) : Option Int :=
  let signDigits : Bool × List Char :=
    match cs with
    | '+' :: rest => (false, rest)
    | '-' :: rest => (true, rest)
    | rest => (false, rest)
  let neg := signDigits.1
  let ds := signDigits.2
  if ds ≠ [] ∧ ds.all Char.isDigit then
    some (if neg then -(natOfDigits ds : Int) else (natOfDigits ds : Int))
  else none

/-- Decimal core of `ParseFloat` after the optional leading sign: mantissa,
optionally followed by `e`/`E` and an exponent. Returns the value as
`(digits, power of ten)`. -/
def parseFloatCore (cs : List Char) : Option (Nat × Int) :=
  match cs.findIdx? (fun c => c = 'e' ∨ c = 'E') with
  | none =>
    match parseMantissa cs with
    | some (v, fl) => some (v, -(fl : Int))
    | none => none
  | some i =>
    match parseMantissa (cs.take i), parseExponent (cs.drop (i + 1)) with
    | some (v, fl), some e => some (v, e - (fl : Int))
    | _, _ => none

/-- ASCII lower-casing, used by `ParseFloat`'s case-insensitive match of its
special strings (which are all ASCII). -/
def asciiLower (s : String) : String :=
  ⟨s.data.map fun c => if 'A' ≤ c ∧ c ≤ 'Z' then Char.ofNat (c.toNat + 32) else c⟩

/-- Model of Go `strconv.ParseFloat` (standard library): the special strings
`NaN` and possibly signed `Inf`/`Infinity` (case-insensitive), else an
optionally signed decimal literal with optional fraction and exponent.
Hexadecimal mantissas and digit-separating underscores, which Go also
accepts, are not modelled; no claim exercises them. -/
def parseFloat (s : String) : Option GoFloat :=
  let ls := asciiLower s
  if ls = "nan" then some .nan
  else if ls = "inf" ∨ ls = "+inf" ∨ ls = "infinity" ∨ ls = "+infinity" then
    some (.inf false)
  else if ls = "-inf" ∨ ls = "-infinity" then some (.inf true)
  else
    let signDigits : Bool × List Char :=
      match s.toList with
      | '+' :: rest => (false, rest)
      | '-' :: rest => (true, rest)
      | rest => (false, rest)
    match parseFloatCore signDigits.2 with
    | some (v, e) => some (.finite (if signDigits.1 then -(v : Int) else (v : Int)) e)
    | none => none

/-- A typed field value stored into the output struct, plus the zero value of
a field whose kind is outside the supported set (`zeroOther`). -/
inductive Value where
  | bool (b : Bool)
  | int (n : Int)
  | float (f : GoFloat)
  | str (s : String)
  | zeroOther
deriving DecidableEq, Repr

/-- Go zero value for each kind class. -/
def zeroValue : Kind → Value
  | .bool => .bool false
  | .int => .int 0
  | .float => .float (.finite 0 0)
  | .str => .str ""
  | .unsupported => .zeroOther

/-- A decoded record: the target struct as a field-name/value list, in struct
field order (`reflect.New` zero-initialises every field, including skipped
ones). -/
def Rec := List (String × Value)
deriving instance DecidableEq, Repr for Rec

/-- Model of `reflect.New(reflect.TypeOf(m.endPointStruct))`: every field at its zero
value. -/
def newRecord (fields : List StructField) : Rec :=
  fields.map fun f => (f.fieldName, zeroValue f.kind)

/-- Model of `reflections.SetField(sPtr, name, v)`. -/
def setField (r : Rec) (name : String) (v : Value) : Rec :=
  r.map fun p => if p.1 = name then (p.1, v) else p

/-- Go slice indexing `record[p]` with an `int` index: `none` models the
out-of-range panic. -/
def getCell (record : List String) (p : Int) : Option String :=
  if p < 0 then none else record.get? p.toNat

/-- Outcome of decoding one field of one row. -/
inductive FieldRes where
  | fault
  | err (e : GoErr)
  | val (v : Value)
deriving DecidableEq, Repr

/-- The `switch fieldInfo.kind` body of `Unmarshal` for a single descriptor:
fetch `record[position]` (only the four supported kinds fetch; the `default:`
branch errors without touching the row) and convert. `fault` models the Go
index-out-of-range panic. -/
def decodeField (fi : fieldInfo) (record : List String) : FieldRes :=
  match fi.kind with
  | .bool =>
    match getCell record fi.position with
    | none => .fault
    | some cell =>
      match parseBool cell with
      | some b => .val (.bool b)
      | none => .err (.boolParse cell)
  | .int =>
    match getCell record fi.position with
    | none => .fault
    | some cell =>
      match atoi cell with
      | some n => .val (.int n)
      | none => .err (.intParse cell)
  | .float =>
    match getCell record fi.position with
    | none => .fault
    | some cell =>
      match parseFloat cell with
      | some f => .val (.float f)
      | none => .err (.floatParse cell)
  | .str =>
    match getCell record fi.position with
    | none => .fault
    | some cell => .val (.str cell)
  | .unsupported => .err .errUnsupportedCSVType

/-- Outcome of the per-row descriptor loop: a panic, or the (possibly
partially populated) record together with the first field failure, when one
occurred (`break` stops the loop at the first failure). -/
inductive RowDec where
  | panicked
  | done (rec : Rec) (fieldErr : Option (Int × GoErr))
deriving DecidableEq, Repr

/-- The `for _, fieldInfo := range m.fieldInfos` loop of `Unmarshal`: decode
each field in schema order into the record under construction; on the first
failure record the failing column and stop (`break`). -/
def decodeRow : List fieldInfo → List String → Rec → RowDec
  | [], _, rec => .done rec none
  | fi :: rest, record, rec =>
    match decodeField fi record with
    | .fault => .panicked
    | .err e => .done rec (some (fi.position, e))
    | .val v => decodeRow rest record (setField rec fi.fieldName v)

/-- Structure `csv.ParseError` as used by the package: line, column and cause. -/
structure ParseError where
  line : Int
  column : Int
  err : GoErr
deriving DecidableEq, Repr

/-- One `m.Reader.Read()` outcome before end of input: a row, a
`*csv.ParseError`, or some other (non-`ParseError`, non-`EOF`) error such as
an I/O failure. The row source is modelled as the finite list of these
outcomes; the end of the list is `io.EOF`. -/
inductive ReadResult where
  | ok (record : List String)
  | parseErr (pe : ParseError)
  | otherErr (code : Nat)
deriving DecidableEq, Repr

/-- Result of `Unmarshal`: a Go runtime panic, a fatal `return nil, err` with
a `*csv.ParseError` or with a non-`ParseError` error, or the final
`return structs, m.errors` (`errs = []` means the returned error is `nil`). -/
inductive URet where
  | panicked
  | fatalParse (pe : ParseError)
  | fatalOther (code : Nat)
  | done (structs : List Rec) (errs : List ParseError)
deriving DecidableEq, Repr

/-- The `for` loop of `Unmarshal`. `line` counts rows already consumed, so
the row being processed is line `line + 1` (the source increments `line` at
the top of the loop). State threaded through: the descriptor list (mutated
once, by header resolution), `m.errors`, and the collected `structs`.
On a data row, the first field failure appends a `ParseError` carrying the
row's line and the field's column — and the partially populated record is
still appended to `structs` (the `break` leaves the field loop only; the
append of `v` follows unconditionally). -/
def unmarshalLoop (lazy : Bool) (fields : List StructField) :
    List ReadResult → Nat → List fieldInfo → List ParseError → List Rec → URet
  | [], _, _, errs, structs => .done structs errs
  | r :: rest, line, fis, errs, structs =>
    match r with
    | .parseErr pe =>
      if lazy then unmarshalLoop lazy fields rest (line + 1) fis (errs ++ [pe]) structs
      else .fatalParse pe
    | .otherErr c =>
      if lazy then unmarshalLoop lazy fields rest (line + 1) fis errs structs
      else .fatalOther c
    | .ok record =>
      if line + 1 = 1 then
        if isComplete (resolveHeader fis record) then
          unmarshalLoop lazy fields rest (line + 1) (resolveHeader fis record) errs structs
        else
          .fatalParse { line := 0, column := 0, err := .errHeaderNotComplete }
      else
        match decodeRow fis record (newRecord fields) with
        | .panicked => .panicked
        | .done rec none =>
          unmarshalLoop lazy fields rest (line + 1) fis errs (structs ++ [rec])
        | .done rec (some (col, e)) =>
          unmarshalLoop lazy fields rest (line + 1) fis
            (errs ++ [{ line := (line + 1 : Int), column := col, err := e }])
            (structs ++ [rec])

/-- Method `Marshaler.Unmarshal`, starting from a freshly constructed `Marshaler`
(`m.errors = []`, descriptor list `fis` as produced by `createFieldInfos`). -/
def unmarshal (lazy : Bool) (fields : List StructField) (fis : List fieldInfo)
    (reads : List ReadResult) : URet :=
  unmarshalLoop lazy fields reads 0 fis [] []

/-- Number of records in a `done` result. -/
def URet.numRecs : URet → Option Nat
  | .done structs _ => some structs.length
  | _ => none

/-- Number of aggregated errors in a `done` result. -/
def URet.numErrs : URet → Option Nat
  | .done _ errs => some errs.length
  | _ => none

/-- Holds on an error cause produced by the field-decode `switch` (as opposed
to causes carried by reader-produced `ParseError`s). -/
def isDecodeErr : GoErr → Bool
  | .boolParse _ => true
  | .intParse _ => true
  | .floatParse _ => true
  | .errUnsupportedCSVType => true
  | _ => false

/-- Holds when decoding the row stops at a failing field. -/
def rowFails (fields : List StructField) (fis : List fieldInfo)
    (row : List String) : Bool :=
  match decodeRow fis row (newRecord fields) with
  | .done _ (some _) => true
  | _ => false

/-! ### Test fixtures

`TestStruct` from the repository's test suite: four mapped fields and one
field whose tag is the skip marker. -/

/-- The fields of `TestStruct`, in declaration order. -/
def testFields : List StructField :=
  [⟨"Field0", "FIELD_0", .str⟩, ⟨"Field1", "FIELD_1", .int⟩,
   ⟨"Field2", "FIELD_2", .bool⟩, ⟨"Field3", "FIELD_3", .float⟩,
   ⟨"IngnoredStruct", "-", .bool⟩]

/-- The descriptor list `createFieldInfos` derives from `TestStruct`. -/
def testFis : List fieldInfo :=
  [⟨-1, "FIELD_0", "Field0", .str⟩, ⟨-1, "FIELD_1", "Field1", .int⟩,
   ⟨-1, "FIELD_2", "Field2", .bool⟩, ⟨-1, "FIELD_3", "Field3", .float⟩]

/-- The wrong-types input of the test suite and the specification: a valid
header and three data rows, each with exactly one malformed field value. -/
def wrongTypeReads : List ReadResult :=
  [.ok ["FIELD_0", "FIELD_1", "FIELD_2", "FIELD_3"],
   .ok ["string1", "notvalid", "true", "1.14"],
   .ok ["string2", "2", "notvalid", "2.14"],
   .ok ["string3", "3", "true", "not.valid"]]

/-! ### Theorems -/

deriving instance DecidableEq for Except

theorem testFis_eq : createFieldInfos (.ofStruct testFields) = .ok testFis := by
  decide

/-- C1 counterexample: in strict mode (`Lazy = false`), the wrong-types input
(three data rows, one malformed field each) does not abort at the first
decode failure: `Unmarshal` returns a `done` result carrying 3 records and an
aggregate of 3 errors, not `(none, single error)`; the collected output is
not discarded. -/
theorem strict_decode_failure_not_fatal_cex :
    (unmarshal false testFields testFis wrongTypeReads).numRecs = some 3 ∧
      (unmarshal false testFields testFis wrongTypeReads).numErrs = some 3 := by
  decide

/-- C2 counterexample: in lazy mode, the wrong-types input yields the
aggregate of exactly 3 errors the claim predicts, but the decoded-record
sequence has 3 entries — it is not empty, so a record *is* emitted for each
failing row. -/
theorem lazy_bad_rows_records_not_discarded_cex :
    (unmarshal true testFields testFis wrongTypeReads).numRecs = some 3 ∧
      (unmarshal true testFields testFis wrongTypeReads).numErrs = some 3 := by
  decide

/-- C2 amended: for every data row in which some field fails to decode, a
*partially populated* record is emitted: fields decoded before the failure
keep their values, the failing field and all later ones keep their zero
values; the lazy-mode wrong-types input yields an aggregate with exactly 3
entries together with 3 such partial records. -/
theorem lazy_bad_rows_partial_records :
    unmarshal true testFields testFis wrongTypeReads =
      .done
        [[("Field0", .str "string1"), ("Field1", .int 0), ("Field2", .bool false),
          ("Field3", .float (.finite 0 0)), ("IngnoredStruct", .bool false)],
         [("Field0", .str "string2"), ("Field1", .int 2), ("Field2", .bool false),
          ("Field3", .float (.finite 0 0)), ("IngnoredStruct", .bool false)],
         [("Field0", .str "string3"), ("Field1", .int 3), ("Field2", .bool true),
          ("Field3", .float (.finite 0 0)), ("IngnoredStruct", .bool false)]]
        [⟨2, 1, .intParse "notvalid"⟩, ⟨3, 2, .boolParse "notvalid"⟩,
         ⟨4, 3, .floatParse "not.valid"⟩] := by
  decide

/-- C3: evaluation of the code at the failing input. In lazy mode a
structural row-read failure on line 1 is *not* fatal: the loop appends the
`ParseError` and continues, the header is never resolved, every position is
still `-1`, and the next well-formed row makes the cell fetch
`record[fieldInfo.position]` fault (index out of range): a Go runtime panic,
not the fatal error return the claim describes. -/
theorem lazy_line1_read_failure_panics :
    unmarshal true testFields testFis
      [.parseErr ⟨1, 0, .readErr 0⟩, .ok ["string1", "1", "true", "1.14"]] =
      .panicked := by
  decide

/-- C4 counterexample: a field whose tag is `"A-B"` — non-empty and distinct
from the literal skip marker `"-"` — is nevertheless excluded from the
schema, because the source skips any tag *containing* a dash
(`strings.Contains(headerName, "-")`). -/
theorem skip_marker_contains_dash_cex :
    createFieldInfos (.ofStruct [⟨"Field0", "A-B", .str⟩]) = .ok [] := by
  decide

/-- C5 counterexample: the literal `"1"`, which is neither `"true"` nor
`"false"`, decodes successfully as a `Bool` field (the source uses Go's
`strconv.ParseBool`). -/
theorem bool_decode_accepts_one_cex :
    decodeField ⟨0, "B", "B", Kind.bool⟩ ["1"] = .val (.bool true) := by
  decide

/-- C5 amended: a cell decoded with kind `Bool` succeeds exactly on the
twelve `strconv.ParseBool` literals — `1`, `t`, `T`, `true`, `TRUE`, `True`
(value `true`) and `0`, `f`, `F`, `false`, `FALSE`, `False` (value `false`) —
and every other literal fails with a bool-parse error naming the cell. -/
theorem bool_decode_go_literals (s : String) :
    decodeField ⟨0, "B", "B", Kind.bool⟩ [s] =
      if s = "1" ∨ s = "t" ∨ s = "T" ∨ s = "true" ∨ s = "TRUE" ∨ s = "True" then
        .val (.bool true)
      else if s = "0" ∨ s = "f" ∨ s = "F" ∨ s = "false" ∨ s = "FALSE" ∨ s = "False" then
        .val (.bool false)
      else
        .err (.boolParse s) := by
  have h0 : getCell [s] 0 = some s := rfl
  by_cases h1 : s = "1" ∨ s = "t" ∨ s = "T" ∨ s = "true" ∨ s = "TRUE" ∨ s = "True"
  · simp [decodeField, h0, parseBool, h1]
  · by_cases h2 : s = "0" ∨ s = "f" ∨ s = "F" ∨ s = "false" ∨ s = "FALSE" ∨ s = "False"
    · simp [decodeField, h0, parseBool, h1, h2]
    · simp [decodeField, h0, parseBool, h1, h2]

theorem bool_decode_go_literals_witness :
    decodeField ⟨0, "B", "B", Kind.bool⟩ ["yes"] =
      (if "yes" = "1" ∨ "yes" = "t" ∨ "yes" = "T" ∨ "yes" = "true" ∨
          "yes" = "TRUE" ∨ "yes" = "True" then
        .val (.bool true)
      else if "yes" = "0" ∨ "yes" = "f" ∨ "yes" = "F" ∨ "yes" = "false" ∨
          "yes" = "FALSE" ∨ "yes" = "False" then
        .val (.bool false)
      else
        .err (.boolParse "yes")) :=
  bool_decode_go_literals "yes"

/-- C8: decoding is independent of column order. The input with header
`FIELD_0;FIELD_1;FIELD_2;FIELD_3` and row `string1;1;true;1.14`, and the
input with header `FIELD_2;FIELD_1;FIELD_3;FIELD_0` and row
`true;1;1.14;string1`, decoded against the `TestStruct` schema, produce the
identical single decoded record. -/
theorem column_order_independence :
    unmarshal false testFields testFis
        [.ok ["FIELD_0", "FIELD_1", "FIELD_2", "FIELD_3"],
         .ok ["string1", "1", "true", "1.14"]] =
      .done
        [[("Field0", .str "string1"), ("Field1", .int 1), ("Field2", .bool true),
          ("Field3", .float (.finite 114 (-2))), ("IngnoredStruct", .bool false)]]
        [] ∧
    unmarshal false testFields testFis
        [.ok ["FIELD_2", "FIELD_1", "FIELD_3", "FIELD_0"],
         .ok ["true", "1", "1.14", "string1"]] =
      .done
        [[("Field0", .str "string1"), ("Field1", .int 1), ("Field2", .bool true),
          ("Field3", .float (.finite 114 (-2))), ("IngnoredStruct", .bool false)]]
        [] := by
  constructor <;> decide

/-- C6: when the header row lacks a cell matching some descriptor's header
name, `isComplete` fails after resolution and `Unmarshal` returns
`(nil, &csv.ParseError{Err: ErrHeaderNotComplete})` — a fatal result carrying
zero records — without consuming further input, in strict and lazy modes
alike (the branch never consults the `Lazy` flag). -/
theorem header_incomplete_fatal (lazy : Bool) (fields : List StructField)
    (fis : List fieldInfo) (header : List String) (rest : List ReadResult)
    (h : isComplete (resolveHeader fis header) = false) :
    unmarshal lazy fields fis (.ok header :: rest) =
      .fatalParse ⟨0, 0, .errHeaderNotComplete⟩ := by
  simp [unmarshal, unmarshalLoop, h]

theorem header_incomplete_fatal_witness :
    isComplete (resolveHeader testFis ["FIELD_0", "FIELD_2", "FIELD_1"]) = false ∧
      unmarshal true testFields testFis
          [.ok ["FIELD_0", "FIELD_2", "FIELD_1"], .ok ["string1", "true", "1"]] =
        .fatalParse ⟨0, 0, .errHeaderNotComplete⟩ :=
  ⟨by decide,
   header_incomplete_fatal true testFields testFis ["FIELD_0", "FIELD_2", "FIELD_1"]
     [.ok ["string1", "true", "1"]] (by decide)⟩

/-- The `Lazy` flag is consulted only on row-read failures: on a read stream
with no failed reads, strict and lazy runs coincide step for step. -/
theorem loop_mode_eq (fields : List StructField) :
    ∀ (reads : List ReadResult), (∀ r ∈ reads, ∃ rec, r = ReadResult.ok rec) →
      ∀ line fis errs structs,
        unmarshalLoop false fields reads line fis errs structs =
          unmarshalLoop true fields reads line fis errs structs := by
  intro reads
  induction reads with
  | nil => intro _ _ _ _ _; rfl
  | cons r rest ih =>
    intro h line fis errs structs
    obtain ⟨rec, hr⟩ := h r (List.mem_cons_self r rest)
    subst hr
    have hrest := fun r hm => h r (List.mem_cons_of_mem _ hm)
    simp only [unmarshalLoop]
    by_cases hl : line + 1 = 1
    · simp only [hl, if_pos]
      by_cases hc : isComplete (resolveHeader fis rec)
      · simp only [hc, if_pos, ite_true]
        exact ih hrest _ _ _ _
      · simp [hc]
    · simp only [if_neg hl]
      cases hd : decodeRow fis rec (newRecord fields) with
      | panicked => rfl
      | done r fieldErr =>
        cases fieldErr with
        | none => exact ih hrest _ _ _ _
        | some p => exact ih hrest _ _ _ _

/-- Processing a block of well-formed data rows (the line counter already
past the header): every row contributes exactly one record to the output,
and exactly the rows whose decode stops at a failing field contribute one
aggregate error each. -/
theorem loop_data_rows (lazy : Bool) (fields : List StructField)
    (fis : List fieldInfo) :
    ∀ (rows : List (List String)) (line : Nat) (errs : List ParseError)
      (structs : List Rec), 1 ≤ line →
      (∀ row ∈ rows, decodeRow fis row (newRecord fields) ≠ .panicked) →
      ∃ recs newErrs,
        unmarshalLoop lazy fields (rows.map .ok) line fis errs structs =
          .done (structs ++ recs) (errs ++ newErrs) ∧
        recs.length = rows.length ∧
        newErrs.length = rows.countP (fun row => rowFails fields fis row) := by
  intro rows
  induction rows with
  | nil =>
    intro line errs structs _ _
    exact ⟨[], [], by simp [unmarshalLoop], rfl, rfl⟩
  | cons row rows ih =>
    intro line errs structs hline hnp
    have hl1 : ¬(line + 1 = 1) := by omega
    have hnp0 := hnp row (List.mem_cons_self row rows)
    have hnps := fun r hm => hnp r (List.mem_cons_of_mem _ hm)
    simp only [List.map_cons, unmarshalLoop, if_neg hl1]
    cases hd : decodeRow fis row (newRecord fields) with
    | panicked => exact absurd hd hnp0
    | done rec fieldErr =>
      cases fieldErr with
      | none =>
        obtain ⟨recs, newErrs, heq, hlen, herrs⟩ :=
          ih (line + 1) errs (structs ++ [rec]) (by omega) hnps
        refine ⟨rec :: recs, newErrs, ?_, by simp [hlen], ?_⟩
        · show unmarshalLoop lazy fields (rows.map .ok) (line + 1) fis errs
              (structs ++ [rec]) = .done (structs ++ rec :: recs) (errs ++ newErrs)
          rw [heq]; simp
        · have : rowFails fields fis row = false := by
            simp [rowFails, hd]
          simp [List.countP_cons, this, herrs]
      | some p =>
        obtain ⟨col, e⟩ := p
        obtain ⟨recs, newErrs, heq, hlen, herrs⟩ :=
          ih (line + 1) (errs ++ [⟨(line + 1 : Int), col, e⟩]) (structs ++ [rec])
            (by omega) hnps
        refine ⟨rec :: recs, ⟨(line + 1 : Int), col, e⟩ :: newErrs, ?_, by simp [hlen], ?_⟩
        · show unmarshalLoop lazy fields (rows.map .ok) (line + 1) fis
              (errs ++ [⟨(line + 1 : Int), col, e⟩]) (structs ++ [rec]) =
            .done (structs ++ rec :: recs)
              (errs ++ ⟨(line + 1 : Int), col, e⟩ :: newErrs)
          rw [heq]; simp
        · have : rowFails fields fis row = true := by
            simp [rowFails, hd]
          simp [List.countP_cons, this, herrs]

/-- C1 amended: in strict mode (`Lazy = false`) a field decode failure does
*not* abort the operation. For any input consisting of a resolvable header
followed by well-formed data rows, the strict-mode run coincides with the
lazy-mode run; it ends in the non-fatal `done` state, emits one record per
data row (rows with a failing field included, partially populated), and the
aggregate carries exactly one error per row whose decode stopped at a
failing field. The `Lazy` flag only changes the handling of row-read
failures. -/
theorem strict_decode_failure_continues (fields : List StructField)
    (fis : List fieldInfo) (header : List String) (rows : List (List String))
    (hc : isComplete (resolveHeader fis header) = true)
    (hnp : ∀ row ∈ rows,
      decodeRow (resolveHeader fis header) row (newRecord fields) ≠ .panicked) :
    unmarshal false fields fis (.ok header :: rows.map .ok) =
      unmarshal true fields fis (.ok header :: rows.map .ok) ∧
    ∃ recs errs,
      unmarshal false fields fis (.ok header :: rows.map .ok) = .done recs errs ∧
      recs.length = rows.length ∧
      errs.length = rows.countP
        (fun row => rowFails fields (resolveHeader fis header) row) := by
  constructor
  · apply loop_mode_eq
    intro r hm
    rcases List.mem_cons.mp hm with h | h
    · exact ⟨header, h⟩
    · obtain ⟨row, _, hr⟩ := List.mem_map.mp h
      exact ⟨row, hr.symm⟩
  · have hstep : unmarshal false fields fis (.ok header :: rows.map .ok) =
        unmarshalLoop false fields (rows.map .ok) 1 (resolveHeader fis header) [] [] := by
      simp [unmarshal, unmarshalLoop, hc]
    obtain ⟨recs, newErrs, heq, hlen, herrs⟩ :=
      loop_data_rows false fields (resolveHeader fis header) rows 1 [] []
        (le_refl 1) hnp
    refine ⟨recs, newErrs, ?_, hlen, herrs⟩
    rw [hstep, heq]
    simp

theorem strict_decode_failure_continues_witness :
    isComplete (resolveHeader testFis ["FIELD_0", "FIELD_1", "FIELD_2", "FIELD_3"]) = true ∧
    (∀ row ∈ [["string1", "notvalid", "true", "1.14"],
              ["string2", "2", "notvalid", "2.14"],
              ["string3", "3", "true", "not.valid"]],
      decodeRow (resolveHeader testFis ["FIELD_0", "FIELD_1", "FIELD_2", "FIELD_3"])
        row (newRecord testFields) ≠ .panicked) ∧
    (unmarshal false testFields testFis
        (.ok ["FIELD_0", "FIELD_1", "FIELD_2", "FIELD_3"] ::
          [["string1", "notvalid", "true", "1.14"],
           ["string2", "2", "notvalid", "2.14"],
           ["string3", "3", "true", "not.valid"]].map .ok) =
      unmarshal true testFields testFis
        (.ok ["FIELD_0", "FIELD_1", "FIELD_2", "FIELD_3"] ::
          [["string1", "notvalid", "true", "1.14"],
           ["string2", "2", "notvalid", "2.14"],
           ["string3", "3", "true", "not.valid"]].map .ok) ∧
    ∃ recs errs,
      unmarshal false testFields testFis
        (.ok ["FIELD_0", "FIELD_1", "FIELD_2", "FIELD_3"] ::
          [["string1", "notvalid", "true", "1.14"],
           ["string2", "2", "notvalid", "2.14"],
           ["string3", "3", "true", "not.valid"]].map .ok) = .done recs errs ∧
      recs.length = 3 ∧
      errs.length = [["string1", "notvalid", "true", "1.14"],
                     ["string2", "2", "notvalid", "2.14"],
                     ["string3", "3", "true", "not.valid"]].countP
        (fun row =>
          rowFails testFields
            (resolveHeader testFis ["FIELD_0", "FIELD_1", "FIELD_2", "FIELD_3"]) row)) :=
  ⟨by decide, by decide,
   strict_decode_failure_continues testFields testFis
     ["FIELD_0", "FIELD_1", "FIELD_2", "FIELD_3"]
     [["string1", "notvalid", "true", "1.14"],
      ["string2", "2", "notvalid", "2.14"],
      ["string3", "3", "true", "not.valid"]] (by decide) (by decide)⟩

/-- Under a successful extraction, the emitted header names are exactly the
tags of the dash-free fields, in field order. -/
theorem createFieldInfosAux_ok_names :
    ∀ (fs : List StructField) (seen : List String) (acc out : List fieldInfo),
      createFieldInfosAux fs seen acc = .ok out →
      out.map (·.headerName) =
        acc.map (·.headerName) ++
          (fs.filter fun f => !(f.csvTag.data.contains '-')).map (·.csvTag) := by
  intro fs
  induction fs with
  | nil =>
    intro seen acc out h
    simp only [createFieldInfosAux] at h
    injection h with h
    subst h
    simp
  | cons f rest ih =>
    intro seen acc out h
    simp only [createFieldInfosAux] at h
    by_cases hdash : f.csvTag.data.contains '-' = true
    · rw [if_pos hdash] at h
      have hmem : '-' ∈ f.csvTag.data := by simpa using hdash
      have := ih _ _ _ h
      simp [List.filter_cons, hdash, hmem, this]
    · rw [if_neg hdash] at h
      have hmem : '-' ∉ f.csvTag.data := by simpa using hdash
      by_cases hdup : seen.contains f.csvTag = true
      · rw [if_pos hdup] at h
        exact absurd h (by simp)
      · rw [if_neg hdup] at h
        by_cases hlen : f.csvTag.length = 0
        · rw [if_pos hlen] at h
          exact absurd h (by simp)
        · rw [if_neg hlen] at h
          have := ih _ _ _ h
          simp [List.filter_cons, hdash, hmem, this]

/-- C4 amended: a field is excluded from the schema exactly when its
header-name annotation *contains* a dash character (Go
`strings.Contains(headerName, "-")`) — not only when it is the literal
`"-"`; whenever extraction succeeds, the descriptors carry exactly the tags
of the dash-free fields, in field order. -/
theorem skip_iff_tag_contains_dash (fs : List StructField) (out : List fieldInfo)
    (h : createFieldInfos (.ofStruct fs) = .ok out) :
    out.map (·.headerName) =
      (fs.filter fun f => !(f.csvTag.data.contains '-')).map (·.csvTag) := by
  simpa using createFieldInfosAux_ok_names fs [] [] out h

theorem skip_iff_tag_contains_dash_witness :
    createFieldInfos (.ofStruct testFields) = .ok testFis ∧
      testFis.map (·.headerName) =
        (testFields.filter fun f => !(f.csvTag.data.contains '-')).map (·.csvTag) :=
  ⟨by decide, skip_iff_tag_contains_dash testFields testFis (by decide)⟩

/-- C7 counterexample to the claim as stated: a two-field shape whose tags
`"A-B"` and `"C"` are unique, non-empty and distinct from the literal skip
marker `"-"`, yet extraction yields only one descriptor — not one per
field — because the dash inside `"A-B"` makes the source skip that field. -/
theorem schema_nonskip_dash_tag_cex :
    createFieldInfos (.ofStruct [⟨"F0", "A-B", .str⟩, ⟨"F1", "C", .int⟩]) =
      .ok [⟨-1, "C", "F1", .int⟩] := by
  decide

theorem createFieldInfosAux_all_ok :
    ∀ (fs : List StructField) (seen : List String) (acc : List fieldInfo),
      (∀ f ∈ fs, f.csvTag.data.contains '-' = false) →
      (∀ f ∈ fs, f.csvTag.length ≠ 0) →
      (fs.map (·.csvTag)).Nodup →
      (∀ f ∈ fs, f.csvTag ∉ seen) →
      createFieldInfosAux fs seen acc =
        .ok (acc ++ fs.map fun f => ⟨-1, f.csvTag, f.fieldName, f.kind⟩) := by
  intro fs
  induction fs with
  | nil => intro seen acc _ _ _ _; simp [createFieldInfosAux]
  | cons f rest ih =>
    intro seen acc hdash hlen hnd hseen
    have hd := hdash f (List.mem_cons_self f rest)
    have hl := hlen f (List.mem_cons_self f rest)
    have hs : seen.contains f.csvTag = false := by
      have := hseen f (List.mem_cons_self f rest)
      simpa using this
    rw [List.map_cons, List.nodup_cons] at hnd
    simp only [createFieldInfosAux, hd, hs, Bool.false_eq_true, if_false, if_neg hl]
    rw [ih (f.csvTag :: seen) _
      (fun g hg => hdash g (List.mem_cons_of_mem f hg))
      (fun g hg => hlen g (List.mem_cons_of_mem f hg))
      hnd.2
      (fun g hg => by
        intro hmem
        rcases List.mem_cons.mp hmem with h | h
        · exact hnd.1 (h ▸ List.mem_map_of_mem (·.csvTag) hg)
        · exact hseen g (List.mem_cons_of_mem f hg) h)]
    simp

theorem createFieldInfosAux_dup :
    ∀ (fs : List StructField) (seen : List String) (acc : List fieldInfo),
      (∀ f ∈ fs, f.csvTag.data.contains '-' = false) →
      (∀ f ∈ fs, f.csvTag.length ≠ 0) →
      seen.Nodup →
      ¬(fs.map (·.csvTag) ++ seen).Nodup →
      ∃ t, createFieldInfosAux fs seen acc = .error (.duplicateTag t) := by
  intro fs
  induction fs with
  | nil =>
    intro seen acc _ _ hnd hnot
    simp at hnot
    exact absurd hnd hnot
  | cons f rest ih =>
    intro seen acc hdash hlen hnd hnot
    have hd := hdash f (List.mem_cons_self f rest)
    have hl := hlen f (List.mem_cons_self f rest)
    have hdm : '-' ∉ f.csvTag.data := by simpa using hd
    by_cases hmem : f.csvTag ∈ seen
    · refine ⟨f.csvTag, ?_⟩
      simp [createFieldInfosAux, hdm, hmem]
    · have hs : seen.contains f.csvTag = false := by simpa using hmem
      simp only [createFieldInfosAux, hd, hs, Bool.false_eq_true, if_false, if_neg hl]
      refine ih (f.csvTag :: seen) _
        (fun g hg => hdash g (List.mem_cons_of_mem f hg))
        (fun g hg => hlen g (List.mem_cons_of_mem f hg))
        (List.nodup_cons.mpr ⟨hmem, hnd⟩) ?_
      intro hcontra
      apply hnot
      have hperm : (rest.map (·.csvTag) ++ f.csvTag :: seen).Perm
          (f.csvTag :: (rest.map (·.csvTag) ++ seen)) := List.perm_middle
      have := hperm.nodup hcontra
      simpa using this


theorem createFieldInfosAux_emptyTag :
    ∀ (fs : List StructField) (seen : List String) (acc : List fieldInfo),
      (∀ f ∈ fs, f.csvTag.data.contains '-' = false) →
      (fs.map (·.csvTag) ++ seen).Nodup →
      (∃ f ∈ fs, f.csvTag.length = 0) →
      ∃ name, createFieldInfosAux fs seen acc = .error (.emptyTag name) := by
  intro fs
  induction fs with
  | nil =>
    intro seen acc _ _ hex
    simp at hex
  | cons f rest ih =>
    intro seen acc hdash hnd hex
    have hd := hdash f (List.mem_cons_self f rest)
    have hnd' : (f.csvTag :: (rest.map (·.csvTag) ++ seen)).Nodup := by
      simpa using hnd
    rw [List.nodup_cons] at hnd'
    have hmem : f.csvTag ∉ seen := fun h =>
      hnd'.1 (List.mem_append.mpr (Or.inr h))
    have hs : seen.contains f.csvTag = false := by simpa using hmem
    have hdm : '-' ∉ f.csvTag.data := by simpa using hd
    by_cases hl : f.csvTag.length = 0
    · exact ⟨f.fieldName, by
        simp [createFieldInfosAux, hdm, hmem, hl]⟩
    · simp only [createFieldInfosAux, hd, hs, Bool.false_eq_true, if_false, if_neg hl]
      refine ih (f.csvTag :: seen) _
        (fun g hg => hdash g (List.mem_cons_of_mem f hg)) ?_ ?_
      · have hperm : (f.csvTag :: (rest.map (·.csvTag) ++ seen)).Perm
            (rest.map (·.csvTag) ++ f.csvTag :: seen) := List.perm_middle.symm
        exact hperm.nodup (by simpa using hnd)
      · rcases hex with ⟨g, hg, hge⟩
        rcases List.mem_cons.mp hg with h | h
        · exact absurd (h ▸ hge) hl
        · exact ⟨g, h, hge⟩

/-- C7 amended: schema extraction behaves as claimed once "non-skip" is read
with the source's skip test (tag *containing* a dash). (1) A struct shape
whose tags are pairwise distinct, non-empty and dash-free yields exactly one
descriptor per field, in order, carrying the field's tag, name and kind with
unresolved position `-1`; (2) a non-struct input fails with the not-a-struct
error; (3) with dash-free non-empty tags, a repeated tag fails with the
duplicate-tag error; (4) with dash-free pairwise-distinct tags, an empty tag
fails with the empty-tag error naming the field. -/
theorem schema_extraction_cases :
    (∀ fs : List StructField,
      (∀ f ∈ fs, f.csvTag.data.contains '-' = false) →
      (∀ f ∈ fs, f.csvTag.length ≠ 0) →
      (fs.map (·.csvTag)).Nodup →
      createFieldInfos (.ofStruct fs) =
        .ok (fs.map fun f => ⟨-1, f.csvTag, f.fieldName, f.kind⟩)) ∧
    createFieldInfos .notStruct = .error .errNoStruct ∧
    (∀ fs : List StructField,
      (∀ f ∈ fs, f.csvTag.data.contains '-' = false) →
      (∀ f ∈ fs, f.csvTag.length ≠ 0) →
      ¬(fs.map (·.csvTag)).Nodup →
      ∃ t, createFieldInfos (.ofStruct fs) = .error (.duplicateTag t)) ∧
    (∀ fs : List StructField,
      (∀ f ∈ fs, f.csvTag.data.contains '-' = false) →
      (fs.map (·.csvTag)).Nodup →
      (∃ f ∈ fs, f.csvTag.length = 0) →
      ∃ name, createFieldInfos (.ofStruct fs) = .error (.emptyTag name)) := by
  refine ⟨?_, rfl, ?_, ?_⟩
  · intro fs hdash hlen hnd
    have := createFieldInfosAux_all_ok fs [] [] hdash hlen hnd
      (fun f _ => List.not_mem_nil f.csvTag)
    simpa [createFieldInfos] using this
  · intro fs hdash hlen hnd
    have := createFieldInfosAux_dup fs [] [] hdash hlen List.nodup_nil
      (by simpa using hnd)
    simpa [createFieldInfos] using this
  · intro fs hdash hnd hex
    have := createFieldInfosAux_emptyTag fs [] [] hdash (by simpa using hnd) hex
    simpa [createFieldInfos] using this

theorem schema_extraction_cases_witness :
    (createFieldInfos (.ofStruct
        ([⟨"Field0", "FIELD_0", .str⟩, ⟨"Field1", "FIELD_1", .int⟩,
          ⟨"Field2", "FIELD_2", .bool⟩, ⟨"Field3", "FIELD_3", .float⟩] :
          List StructField)) =
      .ok (([⟨"Field0", "FIELD_0", .str⟩, ⟨"Field1", "FIELD_1", .int⟩,
             ⟨"Field2", "FIELD_2", .bool⟩, ⟨"Field3", "FIELD_3", .float⟩] :
             List StructField).map
           fun f => ⟨-1, f.csvTag, f.fieldName, f.kind⟩)) ∧
    (∃ t, createFieldInfos (.ofStruct
        ([⟨"F0", "A", .str⟩, ⟨"F1", "A", .int⟩] : List StructField)) =
      .error (.duplicateTag t)) ∧
    (∃ name, createFieldInfos (.ofStruct ([⟨"F0", "", .str⟩] : List StructField)) =
      .error (.emptyTag name)) :=
  ⟨schema_extraction_cases.1
     ([⟨"Field0", "FIELD_0", .str⟩, ⟨"Field1", "FIELD_1", .int⟩,
       ⟨"Field2", "FIELD_2", .bool⟩, ⟨"Field3", "FIELD_3", .float⟩] :
       List StructField)
     (by decide) (by decide) (by decide),
   schema_extraction_cases.2.2.1
     ([⟨"F0", "A", .str⟩, ⟨"F1", "A", .int⟩] : List StructField)
     (by decide) (by decide) (by decide),
   schema_extraction_cases.2.2.2 ([⟨"F0", "", .str⟩] : List StructField)
     (by decide) (by decide) (by decide)⟩

/-- Scanning with `posFrom` returns `-1` or an index within the slice. -/
theorem posFrom_bound :
    ∀ (s : List String) (item : String) (i : Int),
      posFrom s item i = -1 ∨
        (i ≤ posFrom s item i ∧ posFrom s item i < i + s.length) := by
  intro s item
  induction s with
  | nil => intro i; left; rfl
  | cons v rest ih =>
    intro i
    simp only [posFrom]
    by_cases h : item = v
    · right
      rw [if_pos h]
      refine ⟨le_refl i, ?_⟩
      simp only [List.length_cons]
      push_cast
      omega
    · rw [if_neg h]
      rcases ih (i + 1) with h1 | ⟨h2, h3⟩
      · left; exact h1
      · right
        refine ⟨by omega, ?_⟩
        simp only [List.length_cons]
        push_cast
        omega

theorem pos_lt_length (s : List String) (item : String)
    (h : 0 ≤ pos s item) : pos s item < (s.length : Int) := by
  unfold pos at *
  rcases posFrom_bound s item 0 with h1 | ⟨_, h3⟩
  · omega
  · simpa using h3

/-- Completeness means every descriptor position is non-negative. -/
theorem isComplete_iff (fis : List fieldInfo) :
    isComplete fis = true ↔ ∀ fi ∈ fis, 0 ≤ fi.position := by
  simp only [isComplete, List.all_eq_true]
  constructor
  · intro h fi hfi
    have := h fi hfi
    simp at this
    omega
  · intro h fi hfi
    have := h fi hfi
    simp
    omega

/-- After a completeness-checked header resolution starting from unresolved
descriptors, every position is a valid index into the header row. -/
theorem resolveHeader_bounds (fis : List fieldInfo) (header : List String)
    (hinit : ∀ fi ∈ fis, fi.position = -1)
    (hc : isComplete (resolveHeader fis header) = true) :
    ∀ fi ∈ resolveHeader fis header,
      0 ≤ fi.position ∧ fi.position < (header.length : Int) := by
  intro fi hfi
  have hfi' := hfi
  rw [resolveHeader, List.mem_map] at hfi'
  obtain ⟨fi0, hfi0, heq⟩ := hfi'
  have hge := (isComplete_iff _).mp hc fi hfi
  by_cases hp : 0 ≤ pos header fi0.headerName
  · have hpos : fi.position = pos header fi0.headerName := by
      rw [← heq]; simp [hp]
    rw [hpos]
    exact ⟨hp, pos_lt_length _ _ hp⟩
  · have hpos : fi.position = -1 := by
      rw [← heq]
      simp only [if_neg hp]
      exact hinit fi0 hfi0
    omega

/-- A descriptor whose position is a valid index never faults: the cell
fetch succeeds (and the `unsupported` branch does not fetch at all). -/
theorem decodeField_ne_fault (fi : fieldInfo) (record : List String)
    (h0 : 0 ≤ fi.position) (h1 : fi.position < (record.length : Int)) :
    decodeField fi record ≠ .fault := by
  have hlt : fi.position.toNat < record.length := by omega
  have hcell : ∃ c, getCell record fi.position = some c := by
    unfold getCell
    rw [if_neg (by omega)]
    exact ⟨record.get ⟨fi.position.toNat, hlt⟩, List.get?_eq_get hlt⟩
  obtain ⟨c, hc⟩ := hcell
  cases hk : fi.kind <;> simp only [decodeField, hk, hc]
  · rcases parseBool c with _ | b <;> simp
  · rcases atoi c with _ | n <;> simp
  · rcases parseFloat c with _ | g <;> simp
  · simp
  · simp

/-- Row decoding never panics when every schema position is in bounds. -/
theorem decodeRow_ne_panicked :
    ∀ (fis : List fieldInfo) (record : List String) (rec : Rec),
      (∀ fi ∈ fis, 0 ≤ fi.position ∧ fi.position < (record.length : Int)) →
      decodeRow fis record rec ≠ .panicked := by
  intro fis
  induction fis with
  | nil => intro record rec _; simp [decodeRow]
  | cons fi rest ih =>
    intro record rec hb
    obtain ⟨h0, h1⟩ := hb fi (List.mem_cons_self fi rest)
    simp only [decodeRow]
    cases hdf : decodeField fi record with
    | fault => exact absurd hdf (decodeField_ne_fault fi record h0 h1)
    | err e => simp
    | val v => exact ih record _ (fun g hg => hb g (List.mem_cons_of_mem fi hg))

/-- After the header line, the loop never panics as long as every
successfully read row is long enough for every schema position. -/
theorem loop_no_panic_data (lazy : Bool) (fields : List StructField) :
    ∀ (reads : List ReadResult) (line : Nat) (fis : List fieldInfo)
      (errs : List ParseError) (structs : List Rec), 1 ≤ line →
      (∀ rec, ReadResult.ok rec ∈ reads →
        ∀ fi ∈ fis, 0 ≤ fi.position ∧ fi.position < (rec.length : Int)) →
      unmarshalLoop lazy fields reads line fis errs structs ≠ .panicked := by
  intro reads
  induction reads with
  | nil => intro line fis errs structs _ _; simp [unmarshalLoop]
  | cons r rest ih =>
    intro line fis errs structs hline hb
    have hl1 : ¬(line + 1 = 1) := by omega
    have hbrest : ∀ rec, ReadResult.ok rec ∈ rest →
        ∀ fi ∈ fis, 0 ≤ fi.position ∧ fi.position < (rec.length : Int) :=
      fun rec hm => hb rec (List.mem_cons_of_mem r hm)
    cases r with
    | parseErr pe =>
      simp only [unmarshalLoop]
      cases lazy with
      | false => simp
      | true => exact ih (line + 1) fis (errs ++ [pe]) structs (by omega) hbrest
    | otherErr c =>
      simp only [unmarshalLoop]
      cases lazy with
      | false => simp
      | true => exact ih (line + 1) fis errs structs (by omega) hbrest
    | ok rec =>
      simp only [unmarshalLoop, if_neg hl1]
      have hrow := hb rec (List.mem_cons_self _ rest)
      cases hd : decodeRow fis rec (newRecord fields) with
      | panicked => exact absurd hd (decodeRow_ne_panicked fis rec _ hrow)
      | done r fieldErr =>
        cases fieldErr with
        | none =>
          exact ih (line + 1) fis errs (structs ++ [r]) (by omega) hbrest
        | some p =>
          obtain ⟨col, e⟩ := p
          exact ih (line + 1) fis
            (errs ++ [⟨(line + 1 : Int), col, e⟩]) (structs ++ [r]) (by omega) hbrest

/-- C9: when header resolution succeeds (descriptors start unresolved and
`isComplete` holds after matching the header row) and — as the
`encoding/csv` reader guarantees for rows it returns without error — every
successfully read data row has the header's cell count, every resolved
position is an in-bounds index into each such row, and the whole
`Unmarshal` run can never reach the out-of-range fault: the cell fetch
`record[position]` is safe. -/
theorem resolved_positions_in_bounds_no_panic (lazy : Bool)
    (fields : List StructField) (fis : List fieldInfo) (header : List String)
    (rest : List ReadResult)
    (hinit : ∀ fi ∈ fis, fi.position = -1)
    (hc : isComplete (resolveHeader fis header) = true)
    (hlen : ∀ rec, ReadResult.ok rec ∈ rest → rec.length = header.length) :
    (∀ fi ∈ resolveHeader fis header,
      0 ≤ fi.position ∧ fi.position < (header.length : Int)) ∧
    unmarshal lazy fields fis (.ok header :: rest) ≠ .panicked := by
  have hbounds := resolveHeader_bounds fis header hinit hc
  refine ⟨hbounds, ?_⟩
  have hstep : unmarshal lazy fields fis (.ok header :: rest) =
      unmarshalLoop lazy fields rest 1 (resolveHeader fis header) [] [] := by
    simp [unmarshal, unmarshalLoop, hc]
  rw [hstep]
  apply loop_no_panic_data lazy fields rest 1 (resolveHeader fis header) [] []
    (le_refl 1)
  intro rec hm fi hfi
  rw [hlen rec hm]
  exact hbounds fi hfi

theorem resolved_positions_in_bounds_no_panic_witness :
    (∀ fi ∈ testFis, fi.position = -1) ∧
    isComplete
      (resolveHeader testFis ["FIELD_2", "FIELD_1", "FIELD_3", "FIELD_0"]) = true ∧
    ((∀ fi ∈ resolveHeader testFis ["FIELD_2", "FIELD_1", "FIELD_3", "FIELD_0"],
        0 ≤ fi.position ∧
          fi.position < ((["FIELD_2", "FIELD_1", "FIELD_3", "FIELD_0"] :
            List String).length : Int)) ∧
      unmarshal true testFields testFis
          (.ok ["FIELD_2", "FIELD_1", "FIELD_3", "FIELD_0"] ::
            [.ok ["true", "1", "1.14", "string1"]]) ≠ .panicked) :=
  ⟨by decide, by decide,
   resolved_positions_in_bounds_no_panic true testFields testFis
     ["FIELD_2", "FIELD_1", "FIELD_3", "FIELD_0"]
     [.ok ["true", "1", "1.14", "string1"]]
     (by decide) (by decide)
     (by intro rec hm; simp at hm; subst hm; rfl)⟩

/-- Field-decode failures always carry a decode cause. -/
theorem decodeField_err_isDecodeErr (fi : fieldInfo) (record : List String)
    (e : GoErr) (h : decodeField fi record = .err e) : isDecodeErr e = true := by
  unfold decodeField at h
  split at h <;>
    (try split at h) <;>
    (try split at h) <;>
    (try (injection h with h; subst h; rfl)) <;>
    simp at h

/-- The error a row decode stops at is always a decode cause. -/
theorem decodeRow_err_isDecodeErr :
    ∀ (fis : List fieldInfo) (record : List String) (rec r : Rec) (col : Int)
      (e : GoErr), decodeRow fis record rec = .done r (some (col, e)) →
      isDecodeErr e = true := by
  intro fis
  induction fis with
  | nil =>
    intro record rec r col e h
    simp [decodeRow] at h
  | cons fi rest ih =>
    intro record rec r col e h
    simp only [decodeRow] at h
    cases hdf : decodeField fi record <;> rw [hdf] at h
    · simp at h
    · simp at h
      obtain ⟨-, -, he⟩ := h
      exact he ▸ decodeField_err_isDecodeErr fi record _ hdf
    · exact ih record _ r col e h

/-- In lazy mode, every entry of the final aggregate either was already
accumulated, is the payload of a `ParseError`-typed read failure in the
stream, or carries a field-decode cause; non-`ParseError` read failures
contribute nothing. -/
theorem loop_lazy_err_sources (fields : List StructField) :
    ∀ (reads : List ReadResult) (line : Nat) (fis : List fieldInfo)
      (errs : List ParseError) (structs recs : List Rec)
      (errsOut : List ParseError),
      unmarshalLoop true fields reads line fis errs structs = .done recs errsOut →
      ∀ e ∈ errsOut,
        e ∈ errs ∨ ReadResult.parseErr e ∈ reads ∨ isDecodeErr e.err = true := by
  intro reads
  induction reads with
  | nil =>
    intro line fis errs structs recs errsOut h e he
    simp only [unmarshalLoop, URet.done.injEq] at h
    exact Or.inl (h.2 ▸ he)
  | cons r rest ih =>
    intro line fis errs structs recs errsOut h e he
    cases r with
    | parseErr pe =>
      simp only [unmarshalLoop, if_true] at h
      rcases ih _ _ _ _ _ _ h e he with h1 | h2 | h3
      · rcases List.mem_append.mp h1 with ha | hb
        · exact Or.inl ha
        · simp at hb
          subst hb
          exact Or.inr (Or.inl (List.mem_cons_self _ _))
      · exact Or.inr (Or.inl (List.mem_cons_of_mem _ h2))
      · exact Or.inr (Or.inr h3)
    | otherErr c =>
      simp only [unmarshalLoop, if_true] at h
      rcases ih _ _ _ _ _ _ h e he with h1 | h2 | h3
      · exact Or.inl h1
      · exact Or.inr (Or.inl (List.mem_cons_of_mem _ h2))
      · exact Or.inr (Or.inr h3)
    | ok rec =>
      simp only [unmarshalLoop] at h
      by_cases hl : line + 1 = 1
      · rw [if_pos hl] at h
        by_cases hcm : isComplete (resolveHeader fis rec) = true
        · rw [if_pos hcm] at h
          rcases ih _ _ _ _ _ _ h e he with h1 | h2 | h3
          · exact Or.inl h1
          · exact Or.inr (Or.inl (List.mem_cons_of_mem _ h2))
          · exact Or.inr (Or.inr h3)
        · rw [if_neg hcm] at h
          simp at h
      · rw [if_neg hl] at h
        cases hd : decodeRow fis rec (newRecord fields) <;> rw [hd] at h
        · simp at h
        · rename_i r fieldErr
          cases fieldErr with
          | none =>
            rcases ih _ _ _ _ _ _ h e he with h1 | h2 | h3
            · exact Or.inl h1
            · exact Or.inr (Or.inl (List.mem_cons_of_mem _ h2))
            · exact Or.inr (Or.inr h3)
          | some p =>
            obtain ⟨col, e0⟩ := p
            rcases ih _ _ _ _ _ _ h e he with h1 | h2 | h3
            · rcases List.mem_append.mp h1 with ha | hb
              · exact Or.inl ha
              · simp at hb
                subst hb
                exact Or.inr (Or.inr (decodeRow_err_isDecodeErr fis rec _ r col e0 hd))
            · exact Or.inr (Or.inl (List.mem_cons_of_mem _ h2))
            · exact Or.inr (Or.inr h3)

/-- C10: in lazy mode a non-end-of-input row-read error that is not a
`csv.ParseError` (e.g. an I/O error) is skipped without appending anything
to the aggregate — the step consumes the row and leaves `m.errors` and the
output untouched — and every entry of the final aggregate originates either
from a `ParseError`-typed read failure in the stream or from a field-decode
failure. -/
theorem lazy_other_read_error_skipped :
    (∀ (fields : List StructField) (rest : List ReadResult) (line : Nat)
       (fis : List fieldInfo) (errs : List ParseError) (structs : List Rec)
       (c : Nat),
      unmarshalLoop true fields (.otherErr c :: rest) line fis errs structs =
        unmarshalLoop true fields rest (line + 1) fis errs structs) ∧
    (∀ (fields : List StructField) (reads : List ReadResult) (line : Nat)
       (fis : List fieldInfo) (errs : List ParseError) (structs recs : List Rec)
       (errsOut : List ParseError),
      unmarshalLoop true fields reads line fis errs structs = .done recs errsOut →
      ∀ e ∈ errsOut,
        e ∈ errs ∨ ReadResult.parseErr e ∈ reads ∨ isDecodeErr e.err = true) := by
  constructor
  · intro fields rest line fis errs structs c
    simp [unmarshalLoop]
  · intro fields reads line fis errs structs recs errsOut h e he
    exact loop_lazy_err_sources fields reads line fis errs structs recs errsOut h e he

theorem lazy_other_read_error_skipped_witness :
    (unmarshalLoop true testFields [ReadResult.otherErr 7] 5 testFis [] [] =
      unmarshalLoop true testFields [] 6 testFis [] []) ∧
    ((⟨2, 1, .intParse "notvalid"⟩ : ParseError) ∈ ([] : List ParseError) ∨
      ReadResult.parseErr ⟨2, 1, .intParse "notvalid"⟩ ∈ wrongTypeReads ∨
      isDecodeErr (ParseError.mk 2 1 (.intParse "notvalid")).err = true) :=
  ⟨lazy_other_read_error_skipped.1 testFields [] 5 testFis [] [] 7,
   lazy_other_read_error_skipped.2 testFields wrongTypeReads 0 testFis [] []
     [[("Field0", .str "string1"), ("Field1", .int 0), ("Field2", .bool false),
       ("Field3", .float (.finite 0 0)), ("IngnoredStruct", .bool false)],
      [("Field0", .str "string2"), ("Field1", .int 2), ("Field2", .bool false),
       ("Field3", .float (.finite 0 0)), ("IngnoredStruct", .bool false)],
      [("Field0", .str "string3"), ("Field1", .int 3), ("Field2", .bool true),
       ("Field3", .float (.finite 0 0)), ("IngnoredStruct", .bool false)]]
     [⟨2, 1, .intParse "notvalid"⟩, ⟨3, 2, .boolParse "notvalid"⟩,
      ⟨4, 3, .floatParse "not.valid"⟩]
     (by decide) ⟨2, 1, .intParse "notvalid"⟩ (by decide)⟩

end Csv
